import Mathlib

/-!
Shallow embedding of the in-memory virtual filesystem of the
exercise-command-line-challenge repository (the complete variant of the
`FileSystem` class, whose methods `resolvePath`, `mkdirp`, `mkdir`, `cd`,
`pwd`, `touch`, `rm` and `rmdir` appear in full; the second source file is a
truncated draft of the same class).

JavaScript objects are represented by an arena: every `FileSystemNode` lives
in a heap `List (Nat × FileSystemNode)` keyed by a numeric id, and object
references (the `parent` field, the values of the `children` map) are ids.
A JS `Map` is modelled as an insertion-ordered association list, with
`get` / `has` / `set` / `delete` helpers reproducing the `Map` semantics.
Methods that mutate the instance are state-passing functions
`FileSystem → args → FileSystem × String`, the `String` being the method's
return value.
-/

namespace CmdChallenge

/-- The `type` field of a `FileSystemNode`: the JS code stores the string
`'file'` or `'directory'` and only ever constructs these two values. -/
inductive NType where
  | file : NType
  | directory : NType
deriving DecidableEq

/-- JS `class FileSystemNode { name; type; content; children; parent }`.
`children` is the insertion-ordered `Map` from child name to child node
(here: node id); `parent` is `null` (`none`) or a node reference (an id). -/
structure FileSystemNode where
  name : String
  type : NType
  content : String
  children : List (String × Nat)
  parent : Option Nat
deriving DecidableEq

/-- The arena holding every allocated node, keyed by id. -/
abbrev Heap := List (Nat × FileSystemNode)

/-- Placeholder returned when dereferencing an id that is not in the heap.
In JS a reference always points at a live object, so well-formed states never
hit this default; it only keeps `heapGet` total. -/
def dummyNode : FileSystemNode :=
  { name := "", type := NType.directory, content := "", children := [], parent := none }

/-- Dereference an id (follow a JS object reference). -/
def heapGet (h : Heap) (id : Nat) : FileSystemNode :=
  match h.find? (fun p => p.1 == id) with
  | some p => p.2
  | none => dummyNode

/-- Store a node under an id: replace the existing entry in place, or append
a fresh entry (mirrors mutating resp. allocating a JS object). -/
def heapSet (h : Heap) (id : Nat) (n : FileSystemNode) : Heap :=
  match h with
  | [] => [(id, n)]
  | p :: t => if p.1 == id then (id, n) :: t else p :: heapSet t id n

/-- JS `Map.prototype.get` (returning `undefined` as `none`). -/
def mapGet? (m : List (String × Nat)) (k : String) : Option Nat :=
  (m.find? (fun p => p.1 == k)).map (fun p => p.2)

/-- JS `Map.prototype.has`. -/
def mapHas (m : List (String × Nat)) (k : String) : Bool :=
  (m.find? (fun p => p.1 == k)).isSome

/-- JS `Map.prototype.set`: update the existing key in place (insertion order
is kept), or append the new binding at the end. -/
def mapSet (m : List (String × Nat)) (k : String) (v : Nat) : List (String × Nat) :=
  match m with
  | [] => [(k, v)]
  | p :: t => if p.1 == k then (k, v) :: t else p :: mapSet t k v

/-- JS `Map.prototype.delete` (a `Map` holds each key at most once). -/
def mapDelete (m : List (String × Nat)) (k : String) : List (String × Nat) :=
  match m with
  | [] => []
  | p :: t => if p.1 == k then t else p :: mapDelete t k

/-- Split a character list on `'/'`, JS `String.prototype.split('/')`
semantics: `"".split('/') = [""]`, separators at the ends produce empty
pieces. -/
def splitChars : List Char → List String
  | [] => [""]
  | c :: rest =>
    if c = '/' then "" :: splitChars rest
    else
      match splitChars rest with
      | [] => [String.mk [c]]
      | hd :: tl => String.mk (c :: hd.data) :: tl

/-- JS `path.split('/')`. -/
def jsSplitSlash (s : String) : List String :=
  splitChars s.data

/-- JS `path.split('/').filter(Boolean)`: the empty string is the only falsy
string, so this drops exactly the empty pieces. -/
def segments (path : String) : List String :=
  (jsSplitSlash path).filter (fun s => !(s == ""))

/-- JS `parts.join('/')`. -/
def joinSlash : List String → String
  | [] => ""
  | [s] => s
  | s :: rest => s ++ "/" ++ joinSlash rest

/-- JS `path.startsWith('/')` (the pattern is the single character `/`). -/
def jsStartsWithSlash (s : String) : Bool :=
  match s.data with
  | [] => false
  | c :: _ => c == '/'

/-- The `FileSystem` class instance state: the arena of nodes, the id used
for the next allocation, and the `root` / `currentDir` references. -/
structure FileSystem where
  nodes : Heap
  nextId : Nat
  root : Nat
  currentDir : Nat
deriving DecidableEq

/-- The constructor `new FileSystem()` before seeding: `root` is a parentless directory named
`"/"` and `currentDir` starts at `root`.  (The JS constructor additionally
seeds a fixed demo tree via `initializeDefaultStructure`; the claims are
about the operations, which are independent of the seed content, so the
scenario states below are built through the public operations instead.) -/
def FileSystem.new : FileSystem :=
  { nodes := [(0, { name := "/", type := NType.directory, content := "",
                    children := [], parent := none })]
    nextId := 1
    root := 0
    currentDir := 0 }

/-- The segment walk of `resolvePath`: `..` moves to `current.parent ||
current`, `.` is skipped, any other segment is looked up in
`current.children` and resolution fails (`null`) when absent. -/
def resolveLoop (h : Heap) : Nat → List String → Option Nat
  | cur, [] => some cur
  | cur, part :: rest =>
    if part = ".." then
      resolveLoop h ((heapGet h cur).parent.getD cur) rest
    else if part = "." then
      resolveLoop h cur rest
    else
      match mapGet? (heapGet h cur).children part with
      | none => none
      | some next => resolveLoop h next rest

/-- Method `resolvePath(path)`: an empty (or absent, `undefined` — equally falsy)
path returns `currentDir`; otherwise the walk starts at `root` when the path
starts with `'/'` and at `currentDir` otherwise, over the non-empty
segments. -/
def FileSystem.resolvePath (fs : FileSystem) (path : String) : Option Nat :=
  if path = "" then some fs.currentDir
  else
    resolveLoop fs.nodes
      (if jsStartsWithSlash path then fs.root else fs.currentDir)
      (segments path)

/-- The loop of `mkdirp`: for each segment, create a directory child under
`current` when the name is absent, then step into `current.children.get(part)`
(after the conditional the name is always present, so the `getD` default is
never used). -/
def mkdirpLoop : Heap → Nat → Nat → List String → Heap × Nat
  | h, nid, _, [] => (h, nid)
  | h, nid, cur, part :: rest =>
    if mapHas (heapGet h cur).children part then
      mkdirpLoop h nid ((mapGet? (heapGet h cur).children part).getD cur) rest
    else
      let curNode := heapGet h cur
      let h1 := heapSet h nid
        { name := part, type := NType.directory, content := "",
          children := [], parent := some cur }
      let h2 := heapSet h1 cur
        { curNode with children := mapSet curNode.children part nid }
      mkdirpLoop h2 (nid + 1) nid rest

/-- Method `mkdirp(path)`: walk/create all segments, starting at `currentDir`;
always returns `''`. -/
def FileSystem.mkdirp (fs : FileSystem) (path : String) : FileSystem × String :=
  let st := mkdirpLoop fs.nodes fs.nextId fs.currentDir (segments path)
  ({ fs with nodes := st.1, nextId := st.2 }, "")

/-- Method `mkdir(name)`: refuse an existing child name, otherwise create a
parent-linked directory child of `currentDir`. -/
def FileSystem.mkdir (fs : FileSystem) (name : String) : FileSystem × String :=
  if mapHas (heapGet fs.nodes fs.currentDir).children name then
    (fs, "mkdir: " ++ name ++ ": Directory already exists")
  else
    let cur := heapGet fs.nodes fs.currentDir
    let h1 := heapSet fs.nodes fs.nextId
      { name := name, type := NType.directory, content := "",
        children := [], parent := some fs.currentDir }
    let h2 := heapSet h1 fs.currentDir
      { cur with children := mapSet cur.children name fs.nextId }
    ({ fs with nodes := h2, nextId := fs.nextId + 1 }, "")

/-- Method `touch(name)`: like `mkdir` but creates a file node. -/
def FileSystem.touch (fs : FileSystem) (name : String) : FileSystem × String :=
  if mapHas (heapGet fs.nodes fs.currentDir).children name then
    (fs, "touch: " ++ name ++ ": File already exists")
  else
    let cur := heapGet fs.nodes fs.currentDir
    let h1 := heapSet fs.nodes fs.nextId
      { name := name, type := NType.file, content := "",
        children := [], parent := some fs.currentDir }
    let h2 := heapSet h1 fs.currentDir
      { cur with children := mapSet cur.children name fs.nextId }
    ({ fs with nodes := h2, nextId := fs.nextId + 1 }, "")

/-- Method `cd(path)`: the path `'/'` unconditionally jumps to `root`; otherwise resolve,
fail on `null` or on a non-directory target, else move `currentDir`. -/
def FileSystem.cd (fs : FileSystem) (path : String) : FileSystem × String :=
  if path = "/" then ({ fs with currentDir := fs.root }, "")
  else
    match fs.resolvePath path with
    | none => (fs, "cd: " ++ path ++ ": No such directory")
    | some t =>
      if (heapGet fs.nodes t).type ≠ NType.directory then
        (fs, "cd: " ++ path ++ ": Not a directory")
      else
        ({ fs with currentDir := t }, "")

/-- The `while (current)` loop of `pwd`, walking `parent` references and
unshifting names; at `root` it unshifts `''` and stops.  The fuel argument is
an artifact of totality: the JS loop terminates because parent chains in
every constructible state are acyclic with length below `nextId`, and `pwd`
passes `nextId + 1` as fuel. -/
def pwdLoop (h : Heap) (rootId : Nat) : Nat → Nat → List String → List String
  | 0, _, parts => parts
  | fuel + 1, cur, parts =>
    if cur = rootId then "" :: parts
    else
      match (heapGet h cur).parent with
      | none => (heapGet h cur).name :: parts
      | some p => pwdLoop h rootId fuel p ((heapGet h cur).name :: parts)

/-- Method `pwd()`: the JS `parts.join('/') || '/'` over the collected names. -/
def FileSystem.pwd (fs : FileSystem) : String :=
  let parts := pwdLoop fs.nodes fs.root (fs.nextId + 1) fs.currentDir []
  let s := joinSlash parts
  if s = "" then "/" else s

/-- Method `rm(path)`: reject an empty path; pop the last raw segment as the target
name, join the rest back as the parent path (resolved, or `currentDir` when
it is the empty string — JS string falsiness); report `No such file or
directory` when the parent is `null` or lacks the name (`has` is false
exactly when `get` is `undefined`, so the guard is modelled by matching on
`get`); report `Is a directory` for a directory target; otherwise delete the
child binding. -/
def FileSystem.rm (fs : FileSystem) (path : String) : FileSystem × String :=
  if path = "" then (fs, "rm: missing operand")
  else
    let parts := jsSplitSlash path
    let name := parts.getLastD ""
    let parentPath := joinSlash parts.dropLast
    match (if parentPath = "" then some fs.currentDir else fs.resolvePath parentPath) with
    | none => (fs, "rm: " ++ path ++ ": No such file or directory")
    | some par =>
      match mapGet? (heapGet fs.nodes par).children name with
      | none => (fs, "rm: " ++ path ++ ": No such file or directory")
      | some target =>
        if (heapGet fs.nodes target).type = NType.directory then
          (fs, "rm: " ++ path ++ ": Is a directory")
        else
          let parNode := heapGet fs.nodes par
          let h1 := heapSet fs.nodes par
            { parNode with children := mapDelete parNode.children name }
          ({ fs with nodes := h1 }, "")

/-- Method `rmdir(path)`: identical parent/name computation and guard as `rm`
(including the `rm:`-styled messages), but deletes the child binding with no
check of its kind. -/
def FileSystem.rmdir (fs : FileSystem) (path : String) : FileSystem × String :=
  if path = "" then (fs, "rm: missing operand")
  else
    let parts := jsSplitSlash path
    let name := parts.getLastD ""
    let parentPath := joinSlash parts.dropLast
    match (if parentPath = "" then some fs.currentDir else fs.resolvePath parentPath) with
    | none => (fs, "rm: " ++ path ++ ": No such file or directory")
    | some par =>
      if mapHas (heapGet fs.nodes par).children name then
        let parNode := heapGet fs.nodes par
        let h1 := heapSet fs.nodes par
          { parNode with children := mapDelete parNode.children name }
        ({ fs with nodes := h1 }, "")
      else
        (fs, "rm: " ++ path ++ ": No such file or directory")

/-- Ids reachable from `id` by following `children` references, with fuel
bounding the descent depth (the trees of constructible states have depth
below `nextId`, so `reachList h fs.nextId fs.root` collects every id
reachable from the root). -/
def reachList (h : Heap) : Nat → Nat → List Nat
  | 0, id => [id]
  | fuel + 1, id => id :: (heapGet h id).children.flatMap (fun p => reachList h fuel p.2)

/-! Scenario states, built through the public operations from a fresh
instance. -/

/-- Root containing one directory `a` (id 1). -/
def fsA : FileSystem := (FileSystem.new.mkdir "a").1

/-- State `fsA`, then `cd a`. -/
def fsA1 : FileSystem := (fsA.cd "a").1

/-- State `fsA1`, then `mkdir b` (id 2): tree `/a/b`, current directory `/a`. -/
def fsAB : FileSystem := (fsA1.mkdir "b").1

/-- State `fsAB`, then `cd b`: current directory `/a/b`. -/
def fsAB1 : FileSystem := (fsAB.cd "b").1

/-- State `fsAB1`, then `rmdir "../../a"`: the directory `a` — an ancestor of the
current directory — is unlinked from the root while `currentDir` still
references the node of `b`. -/
def fsDangle : FileSystem := (fsAB1.rmdir "../../a").1

/-- State `fsAB`, back at the root: tree `/a/b`, current directory `/`. -/
def fsABRoot : FileSystem := (fsAB.cd "/").1

/-- Root containing one file `f` (id 1). -/
def fsF : FileSystem := (FileSystem.new.touch "f").1

/-- State `fsF`, then `mkdirp "f/g"`: the walk steps into the file `f` and creates
a directory child `g` (id 2) under it. -/
def fsFG : FileSystem := (fsF.mkdirp "f/g").1

/-- Root containing a file `f` (id 1) and a directory `g` (id 2). -/
def fsFDir : FileSystem := (fsF.mkdir "g").1

/-! Claim C2: the dispatch of `resolvePath` between `root` and
`currentDir`. -/

/-- C2: for every path string, `resolvePath` starts its segment walk at the
root node when the path starts with `'/'` and at `currentDir` otherwise, and
an empty (or absent) path resolves to `currentDir`.  Consequently resolving
an absolute path does not depend on `currentDir` at all (third conjunct). -/
theorem claim_C2 :
    (∀ fs : FileSystem, fs.resolvePath "" = some fs.currentDir) ∧
    (∀ (fs : FileSystem) (path : String), path ≠ "" →
      fs.resolvePath path =
        resolveLoop fs.nodes
          (if jsStartsWithSlash path then fs.root else fs.currentDir)
          (segments path)) ∧
    (∀ (fs : FileSystem) (c : Nat) (path : String), path ≠ "" →
      jsStartsWithSlash path = true →
      ({ fs with currentDir := c } : FileSystem).resolvePath path = fs.resolvePath path) := by
  refine ⟨?_, ?_, ?_⟩
  · intro fs; simp [FileSystem.resolvePath]
  · intro fs path hp; simp [FileSystem.resolvePath, hp]
  · intro fs c path hp habs; simp [FileSystem.resolvePath, hp, habs]

/-- Witness for C2 at concrete inputs. -/
theorem claim_C2_witness :
    FileSystem.new.resolvePath "" = some FileSystem.new.currentDir ∧
    fsAB.resolvePath "/a" =
      resolveLoop fsAB.nodes
        (if jsStartsWithSlash "/a" then fsAB.root else fsAB.currentDir)
        (segments "/a") ∧
    ({ fsAB with currentDir := 0 } : FileSystem).resolvePath "/a/b" = fsAB.resolvePath "/a/b" :=
  ⟨claim_C2.1 FileSystem.new,
   claim_C2.2.1 fsAB "/a" (by decide),
   claim_C2.2.2 fsAB 0 "/a/b" (by decide) (by decide)⟩

/-! Claim C4: the segment `..` is a no-op at a parentless walk node (the
root is the only such node in constructible states, since `newDir.parent`
is assigned at every allocation and never cleared) and moves to the parent
everywhere else. -/

/-- C4: `resolvePath ".."` with `currentDir` at the root returns the root
and never fails; at walk level, `..` at a parentless node is a no-op and
`..` at a node with a parent moves the walk to that parent. -/
theorem claim_C4 :
    (∀ fs : FileSystem, fs.currentDir = fs.root →
      (heapGet fs.nodes fs.root).parent = none →
      fs.resolvePath ".." = some fs.root) ∧
    (∀ (h : Heap) (cur : Nat) (rest : List String),
      (heapGet h cur).parent = none →
      resolveLoop h cur (".." :: rest) = resolveLoop h cur rest) ∧
    (∀ (h : Heap) (cur p : Nat) (rest : List String),
      (heapGet h cur).parent = some p →
      resolveLoop h cur (".." :: rest) = resolveLoop h p rest) := by
  refine ⟨?_, ?_, ?_⟩
  · intro fs hcd hpar
    simp only [FileSystem.resolvePath, if_neg (show (".." : String) ≠ "" from by decide),
      show jsStartsWithSlash ".." = false from rfl, Bool.false_eq_true, if_false,
      show segments ".." = [".."] from rfl]
    rw [hcd]
    simp [resolveLoop, hpar]
  · intro h cur rest hpar
    simp [resolveLoop, hpar]
  · intro h cur p rest hpar
    simp [resolveLoop, hpar]

/-- Witness for C4 at concrete inputs. -/
theorem claim_C4_witness :
    FileSystem.new.resolvePath ".." = some FileSystem.new.root ∧
    resolveLoop FileSystem.new.nodes 0 [".."] = resolveLoop FileSystem.new.nodes 0 [] ∧
    resolveLoop fsAB.nodes 2 [".."] = resolveLoop fsAB.nodes 1 [] :=
  ⟨claim_C4.1 FileSystem.new rfl (by decide),
   claim_C4.2.1 FileSystem.new.nodes 0 [] (by decide),
   claim_C4.2.2 fsAB.nodes 2 1 [] (by decide)⟩

/-! Claim C5: the full contract of `cd`. -/

/-- C5: `cd "/"` unconditionally moves `currentDir` to the root and
succeeds; for any other path, `cd` reports `No such directory` when
resolution fails and `Not a directory` when the target is a file — leaving
the whole state unchanged in both failure cases — and moves `currentDir` to
the resolved node on success. -/
theorem claim_C5 : ∀ (fs : FileSystem) (path : String),
    (path = "/" → fs.cd path = ({ fs with currentDir := fs.root }, "")) ∧
    (path ≠ "/" → fs.resolvePath path = none →
      fs.cd path = (fs, "cd: " ++ path ++ ": No such directory")) ∧
    (∀ t, path ≠ "/" → fs.resolvePath path = some t →
      (heapGet fs.nodes t).type = NType.file →
      fs.cd path = (fs, "cd: " ++ path ++ ": Not a directory")) ∧
    (∀ t, path ≠ "/" → fs.resolvePath path = some t →
      (heapGet fs.nodes t).type = NType.directory →
      fs.cd path = ({ fs with currentDir := t }, "")) := by
  intro fs path
  refine ⟨?_, ?_, ?_, ?_⟩
  · intro hp; simp [FileSystem.cd, hp]
  · intro hp hres; simp [FileSystem.cd, hp, hres]
  · intro t hp hres hty; simp [FileSystem.cd, hp, hres, hty]
  · intro t hp hres hty; simp [FileSystem.cd, hp, hres, hty]

/-- Witness for C5: all four cases of the `cd` contract at concrete
inputs. -/
theorem claim_C5_witness :
    FileSystem.new.cd "/" = ({ FileSystem.new with currentDir := FileSystem.new.root }, "") ∧
    FileSystem.new.cd "zzz" = (FileSystem.new, "cd: " ++ "zzz" ++ ": No such directory") ∧
    fsF.cd "f" = (fsF, "cd: " ++ "f" ++ ": Not a directory") ∧
    fsA.cd "a" = ({ fsA with currentDir := 1 }, "") :=
  ⟨(claim_C5 FileSystem.new "/").1 rfl,
   (claim_C5 FileSystem.new "zzz").2.1 (by decide) (by decide),
   (claim_C5 fsF "f").2.2.1 1 (by decide) (by decide) (by decide),
   (claim_C5 fsA "a").2.2.2 1 (by decide) (by decide) (by decide)⟩

/-! Helper lemmas about the heap and map operations and about string
appends, used by the removal-operation claims. -/

/-- Reading a cons cell of the heap. -/
theorem heapGet_cons (k : Nat) (m : FileSystemNode) (t : Heap) (j : Nat) :
    heapGet ((k, m) :: t) j = if k = j then m else heapGet t j := by
  by_cases hk : k = j
  · simp [heapGet, List.find?_cons, hk]
  · simp [heapGet, List.find?_cons, hk,
      show (k == j) = false from beq_eq_false_iff_ne.mpr hk]

/-- Reading after writing: `heapSet` changes exactly the entry of `id`. -/
theorem heapGet_heapSet (h : Heap) (id : Nat) (n : FileSystemNode) (j : Nat) :
    heapGet (heapSet h id n) j = if j = id then n else heapGet h j := by
  induction h with
  | nil =>
    rw [show heapSet [] id n = [(id, n)] from rfl, heapGet_cons]
    by_cases hj : j = id
    · simp [hj]
    · have hij : ¬ id = j := fun he => hj he.symm
      simp [hj, hij]
  | cons p t ih =>
    obtain ⟨k, m⟩ := p
    by_cases hk : k = id
    · subst hk
      rw [show heapSet ((k, m) :: t) k n = (k, n) :: t from by simp [heapSet],
        heapGet_cons, heapGet_cons]
      by_cases hj : k = j
      · simp [hj]
      · have hjk : ¬ j = k := fun he => hj he.symm
        simp [hj, hjk]
    · rw [show heapSet ((k, m) :: t) id n = (k, m) :: heapSet t id n from by
        simp [heapSet, show (k == id) = false from beq_eq_false_iff_ne.mpr hk],
        heapGet_cons, heapGet_cons, ih]
      by_cases hj : k = j
      · subst hj
        simp [hk]
      · simp [hj]

/-- In a JS `Map`, `has` is `get` returning a value (JS `Map` semantics). -/
theorem mapHas_eq (m : List (String × Nat)) (k : String) :
    mapHas m k = (mapGet? m k).isSome := by
  unfold mapHas mapGet?
  cases m.find? (fun p => p.1 == k) <;> rfl

/-- A key that is bound nowhere in the list looks up to `none`. -/
theorem mapGet?_eq_none (m : List (String × Nat)) (k : String)
    (hk : k ∉ m.map Prod.fst) : mapGet? m k = none := by
  induction m with
  | nil => rfl
  | cons p t ih =>
    simp only [List.map_cons, List.mem_cons] at hk
    push_neg at hk
    simp only [mapGet?, List.find?_cons,
      show (p.1 == k) = false from beq_eq_false_iff_ne.mpr (fun he => hk.1 he.symm)]
    exact ih hk.2

/-- Deleting a key removes its binding when the keys are pairwise distinct
(as they always are in a JS `Map`). -/
theorem mapGet?_mapDelete_self (m : List (String × Nat)) (k : String)
    (hnd : (m.map Prod.fst).Nodup) : mapGet? (mapDelete m k) k = none := by
  induction m with
  | nil => rfl
  | cons p t ih =>
    simp only [List.map_cons, List.nodup_cons] at hnd
    by_cases hp : p.1 = k
    · rw [show mapDelete (p :: t) k = t from by
        simp [mapDelete, show (p.1 == k) = true from beq_iff_eq.mpr hp]]
      exact hp ▸ mapGet?_eq_none t p.1 hnd.1
    · rw [show mapDelete (p :: t) k = p :: mapDelete t k from by
        simp [mapDelete, show (p.1 == k) = false from beq_eq_false_iff_ne.mpr hp]]
      rw [show mapGet? (p :: mapDelete t k) k = mapGet? (mapDelete t k) k from by
        simp [mapGet?, List.find?_cons,
          show (p.1 == k) = false from beq_eq_false_iff_ne.mpr hp]]
      exact ih hnd.2

/-- Appending different strings to the same string gives different
strings. -/
theorem append_right_ne (a : String) {b c : String} (hbc : b ≠ c) :
    a ++ b ≠ a ++ c := by
  intro he
  apply hbc
  apply String.ext
  have hd := congrArg String.data he
  rw [String.data_append, String.data_append] at hd
  exact List.append_cancel_left hd

/-- Appending a non-empty string never yields the empty string. -/
theorem append_ne_empty (a b : String) (hb : b ≠ "") : a ++ b ≠ "" := by
  intro he
  apply hb
  apply String.ext
  have hd := congrArg String.data he
  rw [String.data_append] at hd
  exact (List.append_eq_nil.mp hd).2

/-- The state produced by the success branch of `rm` / `rmdir`: the named
binding is deleted from the parent's `children` map (the child node itself
merely becomes unreferenced, as in JS). -/
def unlinkChild (fs : FileSystem) (par : Nat) (name : String) : FileSystem :=
  let parNode := heapGet fs.nodes par
  let h1 := heapSet fs.nodes par
    { parNode with children := mapDelete parNode.children name }
  { fs with nodes := h1 }

/-! Claim C6: the full contract of `rm`. -/

/-- C6: `rm` fails with `missing operand` on an empty path; otherwise it
pops the last raw segment as the target name and resolves the rejoined rest
to the parent (defaulting to `currentDir` when that rejoined string is
empty), fails with `No such file or directory` when the parent or the named
child is absent, fails with `Is a directory` when the named child is a
directory — the whole state unchanged in every failure case — and otherwise
deletes the child binding from the parent's children map and returns
`''`. -/
theorem claim_C6 : ∀ (fs : FileSystem) (path : String),
    (path = "" → fs.rm path = (fs, "rm: missing operand")) ∧
    (path ≠ "" →
      (if joinSlash (jsSplitSlash path).dropLast = "" then some fs.currentDir
       else fs.resolvePath (joinSlash (jsSplitSlash path).dropLast)) = none →
      fs.rm path = (fs, "rm: " ++ path ++ ": No such file or directory")) ∧
    (∀ par, path ≠ "" →
      (if joinSlash (jsSplitSlash path).dropLast = "" then some fs.currentDir
       else fs.resolvePath (joinSlash (jsSplitSlash path).dropLast)) = some par →
      (mapGet? (heapGet fs.nodes par).children ((jsSplitSlash path).getLastD "") = none →
        fs.rm path = (fs, "rm: " ++ path ++ ": No such file or directory")) ∧
      (∀ c, mapGet? (heapGet fs.nodes par).children ((jsSplitSlash path).getLastD "") = some c →
        ((heapGet fs.nodes c).type = NType.directory →
          fs.rm path = (fs, "rm: " ++ path ++ ": Is a directory")) ∧
        ((heapGet fs.nodes c).type = NType.file →
          fs.rm path = (unlinkChild fs par ((jsSplitSlash path).getLastD ""), "")))) := by
  intro fs path
  refine ⟨?_, ?_, ?_⟩
  · intro hp; simp [FileSystem.rm, hp]
  · intro hp hpar
    simp only [FileSystem.rm, if_neg hp, hpar]
  · intro par hp hpar
    refine ⟨?_, ?_⟩
    · intro hc
      simp only [FileSystem.rm, if_neg hp, hpar, hc]
    · intro c hc
      refine ⟨?_, ?_⟩
      · intro hty
        simp only [FileSystem.rm, if_neg hp, hpar, hc, hty]
        simp
      · intro hty
        simp only [FileSystem.rm, if_neg hp, hpar, hc, hty, unlinkChild]
        simp

/-- Witness for C6: all five cases of the `rm` contract at concrete inputs
(missing operand, absent parent, absent child, directory target, file
target). -/
theorem claim_C6_witness :
    FileSystem.new.rm "" = (FileSystem.new, "rm: missing operand") ∧
    FileSystem.new.rm "zzz/x" =
      (FileSystem.new, "rm: " ++ "zzz/x" ++ ": No such file or directory") ∧
    FileSystem.new.rm "x" =
      (FileSystem.new, "rm: " ++ "x" ++ ": No such file or directory") ∧
    fsA.rm "a" = (fsA, "rm: " ++ "a" ++ ": Is a directory") ∧
    fsF.rm "f" = (unlinkChild fsF 0 "f", "") :=
  ⟨(claim_C6 FileSystem.new "").1 rfl,
   (claim_C6 FileSystem.new "zzz/x").2.1 (by decide) (by decide),
   ((claim_C6 FileSystem.new "x").2.2 0 (by decide) (by decide)).1 (by decide),
   (((claim_C6 fsA "a").2.2 0 (by decide) (by decide)).2 1 (by decide)).1 (by decide),
   (((claim_C6 fsF "f").2.2 0 (by decide) (by decide)).2 1 (by decide)).2 (by decide)⟩

/-! Claim C7: `rmdir` shares the parent/name resolution of `rm` but removes
the named child regardless of its kind. -/

/-- C7: `rmdir` performs the same parent/name resolution as `rm` (last
conjunct: its `No such file or directory` outcome coincides with `rm`'s on
every non-empty path), and whenever the named child exists — file or
directory, with no `Is a directory` check — it deletes the binding and
succeeds, so it can also delete file nodes. -/
theorem claim_C7 : ∀ (fs : FileSystem) (path : String),
    (path = "" → fs.rmdir path = (fs, "rm: missing operand")) ∧
    (path ≠ "" →
      (if joinSlash (jsSplitSlash path).dropLast = "" then some fs.currentDir
       else fs.resolvePath (joinSlash (jsSplitSlash path).dropLast)) = none →
      fs.rmdir path = (fs, "rm: " ++ path ++ ": No such file or directory")) ∧
    (∀ par, path ≠ "" →
      (if joinSlash (jsSplitSlash path).dropLast = "" then some fs.currentDir
       else fs.resolvePath (joinSlash (jsSplitSlash path).dropLast)) = some par →
      (mapGet? (heapGet fs.nodes par).children ((jsSplitSlash path).getLastD "") = none →
        fs.rmdir path = (fs, "rm: " ++ path ++ ": No such file or directory")) ∧
      (∀ c, mapGet? (heapGet fs.nodes par).children ((jsSplitSlash path).getLastD "") = some c →
        fs.rmdir path = (unlinkChild fs par ((jsSplitSlash path).getLastD ""), ""))) ∧
    (path ≠ "" →
      ((fs.rmdir path).2 = "rm: " ++ path ++ ": No such file or directory" ↔
       (fs.rm path).2 = "rm: " ++ path ++ ": No such file or directory")) := by
  intro fs path
  refine ⟨?_, ?_, ?_, ?_⟩
  · intro hp; simp [FileSystem.rmdir, hp]
  · intro hp hpar
    simp only [FileSystem.rmdir, if_neg hp, hpar]
  · intro par hp hpar
    refine ⟨?_, ?_⟩
    · intro hc
      have hhas : mapHas (heapGet fs.nodes par).children
          ((jsSplitSlash path).getLastD "") = false := by
        rw [mapHas_eq, hc]; rfl
      simp only [FileSystem.rmdir, if_neg hp, hpar, hhas]
      simp
    · intro c hc
      have hhas : mapHas (heapGet fs.nodes par).children
          ((jsSplitSlash path).getLastD "") = true := by
        rw [mapHas_eq, hc]; rfl
      simp only [FileSystem.rmdir, if_neg hp, hpar, hhas, unlinkChild]
      simp
  · intro hp
    cases hpar : (if joinSlash (jsSplitSlash path).dropLast = "" then some fs.currentDir
        else fs.resolvePath (joinSlash (jsSplitSlash path).dropLast)) with
    | none =>
      have h1 : fs.rmdir path = (fs, "rm: " ++ path ++ ": No such file or directory") := by
        simp only [FileSystem.rmdir, if_neg hp, hpar]
      have h2 : fs.rm path = (fs, "rm: " ++ path ++ ": No such file or directory") := by
        simp only [FileSystem.rm, if_neg hp, hpar]
      rw [h1, h2]
    | some par =>
      cases hc : mapGet? (heapGet fs.nodes par).children ((jsSplitSlash path).getLastD "") with
      | none =>
        have hhas : mapHas (heapGet fs.nodes par).children
            ((jsSplitSlash path).getLastD "") = false := by
          rw [mapHas_eq, hc]; rfl
        have h1 : fs.rmdir path = (fs, "rm: " ++ path ++ ": No such file or directory") := by
          simp only [FileSystem.rmdir, if_neg hp, hpar, hhas]
          simp
        have h2 : fs.rm path = (fs, "rm: " ++ path ++ ": No such file or directory") := by
          simp only [FileSystem.rm, if_neg hp, hpar, hc]
        rw [h1, h2]
      | some c =>
        have hhas : mapHas (heapGet fs.nodes par).children
            ((jsSplitSlash path).getLastD "") = true := by
          rw [mapHas_eq, hc]; rfl
        have h1 : (fs.rmdir path).2 = "" := by
          simp only [FileSystem.rmdir, if_neg hp, hpar, hhas]
          simp
        rw [h1]
        by_cases hty : (heapGet fs.nodes c).type = NType.directory
        · have h2 : (fs.rm path).2 = "rm: " ++ path ++ ": Is a directory" := by
            simp only [FileSystem.rm, if_neg hp, hpar, hc, hty]
            simp
          rw [h2]
          constructor
          · intro hx
            exact absurd hx.symm
              (append_ne_empty "rm: " (path ++ ": No such file or directory")
                (append_ne_empty path ": No such file or directory" (by decide)))
          · intro hx
            exact absurd hx (append_right_ne "rm: " (append_right_ne path (by decide)))
        · have hty2 : (heapGet fs.nodes c).type = NType.file := by
            cases h : (heapGet fs.nodes c).type
            · rfl
            · exact absurd h hty
          have h2 : (fs.rm path).2 = "" := by
            simp only [FileSystem.rm, if_neg hp, hpar, hc, hty2]
            simp
          rw [h2]

/-- Witness for C7: the `rmdir` contract at concrete inputs; in the fourth
conjunct `rmdir` deletes a file node. -/
theorem claim_C7_witness :
    FileSystem.new.rmdir "" = (FileSystem.new, "rm: missing operand") ∧
    FileSystem.new.rmdir "zzz/x" =
      (FileSystem.new, "rm: " ++ "zzz/x" ++ ": No such file or directory") ∧
    FileSystem.new.rmdir "x" =
      (FileSystem.new, "rm: " ++ "x" ++ ": No such file or directory") ∧
    fsF.rmdir "f" = (unlinkChild fsF 0 "f", "") ∧
    ((fsF.rmdir "f").2 = "rm: " ++ "f" ++ ": No such file or directory" ↔
     (fsF.rm "f").2 = "rm: " ++ "f" ++ ": No such file or directory") :=
  ⟨(claim_C7 FileSystem.new "").1 rfl,
   (claim_C7 FileSystem.new "zzz/x").2.1 (by decide) (by decide),
   ((claim_C7 FileSystem.new "x").2.2.1 0 (by decide) (by decide)).1 (by decide),
   ((claim_C7 fsF "f").2.2.1 0 (by decide) (by decide)).2 1 (by decide),
   (claim_C7 fsF "f").2.2.2 (by decide)⟩

/-! Claim C10: `rmdir` performs no emptiness check. -/

/-- C10: for every path whose named child exists and is a non-empty
directory, `rmdir` succeeds in a single step, deleting that child's binding
from the parent (the whole subtree hangs off that one binding, so it is
unlinked together with the child); under the `Map` key-uniqueness discipline
the name is no longer bound in the parent afterwards. -/
theorem claim_C10 : ∀ (fs : FileSystem) (path : String) (par c : Nat),
    path ≠ "" →
    (if joinSlash (jsSplitSlash path).dropLast = "" then some fs.currentDir
     else fs.resolvePath (joinSlash (jsSplitSlash path).dropLast)) = some par →
    mapGet? (heapGet fs.nodes par).children ((jsSplitSlash path).getLastD "") = some c →
    (heapGet fs.nodes c).type = NType.directory →
    (heapGet fs.nodes c).children ≠ [] →
    fs.rmdir path = (unlinkChild fs par ((jsSplitSlash path).getLastD ""), "") ∧
    (((heapGet fs.nodes par).children.map Prod.fst).Nodup →
      mapGet? (heapGet (unlinkChild fs par ((jsSplitSlash path).getLastD "")).nodes par).children
        ((jsSplitSlash path).getLastD "") = none) := by
  intro fs path par c hp hpar hc _ _
  have hhas : mapHas (heapGet fs.nodes par).children
      ((jsSplitSlash path).getLastD "") = true := by
    rw [mapHas_eq, hc]; rfl
  refine ⟨?_, ?_⟩
  · simp only [FileSystem.rmdir, if_neg hp, hpar, hhas, unlinkChild]
    simp
  · intro hnd
    have hg : heapGet (unlinkChild fs par ((jsSplitSlash path).getLastD "")).nodes par =
        { (heapGet fs.nodes par) with
          children := mapDelete (heapGet fs.nodes par).children
            ((jsSplitSlash path).getLastD "") } := by
      simp [unlinkChild, heapGet_heapSet]
    rw [hg]
    exact mapGet?_mapDelete_self _ _ hnd

/-- Witness for C10: removing the non-empty directory `a` (it contains `b`)
with `rmdir` succeeds at once and unbinds the name. -/
theorem claim_C10_witness :
    fsABRoot.rmdir "a" = (unlinkChild fsABRoot 0 "a", "") ∧
    (((heapGet fsABRoot.nodes 0).children.map Prod.fst).Nodup →
      mapGet? (heapGet (unlinkChild fsABRoot 0 "a").nodes 0).children "a" = none) :=
  claim_C10 fsABRoot "a" 0 1 (by decide) (by decide) (by decide) (by decide) (by decide)

/-! Claim C3: an intermediate file segment blocks resolution.  As stated
the claim is false: a `..` segment can move the walk from a file back to its
parent directory, after which later segments can resolve again
(counterexample below).  The amended claim restricts the blocking statement
to the next non-`.` segment. -/

/-- The data-model invariant that file nodes have no children (true of all
states the public operations construct, except through the `mkdirp` slip
recorded for claim C8). -/
abbrev FilesNoChildren (h : Heap) : Prop :=
  ∀ p ∈ h, p.2.type = NType.file → p.2.children = []

/-- Relating a walk over an appended segment list to two chained walks. -/
theorem resolveLoop_append (h : Heap) (l1 l2 : List String) :
    ∀ start, resolveLoop h start (l1 ++ l2) =
      (resolveLoop h start l1).bind (fun m => resolveLoop h m l2) := by
  induction l1 with
  | nil => intro start; rfl
  | cons part rest ih =>
    intro start
    by_cases h1 : part = ".."
    · simp only [List.cons_append, resolveLoop, if_pos h1]
      exact ih _
    · by_cases h2 : part = "."
      · simp only [List.cons_append, resolveLoop, if_neg h1, if_pos h2]
        exact ih _
      · simp only [List.cons_append, resolveLoop, if_neg h1, if_neg h2]
        cases hl : mapGet? (heapGet h start).children part with
        | none => simp
        | some next => exact ih _

/-- A walk standing at a file node fails as soon as it meets a segment that
is neither `.` nor `..`, provided files have no children. -/
theorem resolveLoop_file_blocked (h : Heap)
    (hfiles : FilesNoChildren h) :
    ∀ (dots : List String), (∀ x ∈ dots, x = ".") →
    ∀ (f : Nat) (s : String) (rest : List String),
      (heapGet h f).type = NType.file → s ≠ "." → s ≠ ".." →
      resolveLoop h f (dots ++ s :: rest) = none := by
  intro dots
  induction dots with
  | nil =>
    intro _ f s rest hf hs1 hs2
    have hch : (heapGet h f).children = [] := by
      rcases hfind : h.find? (fun p => p.1 == f) with _ | pr
      · rw [show heapGet h f = dummyNode from by unfold heapGet; rw [hfind]] at hf
        exact absurd hf (by decide)
      · have hgs : heapGet h f = pr.2 := by unfold heapGet; rw [hfind]
        rw [hgs] at hf ⊢
        exact hfiles pr (List.mem_of_find?_eq_some hfind) hf
    simp only [List.nil_append, resolveLoop, if_neg hs2, if_neg hs1, hch]
    rfl
  | cons d ds ih =>
    intro hd f s rest hf hs1 hs2
    have hd1 : d = "." := hd d (List.mem_cons_self d ds)
    have hds : ∀ x ∈ ds, x = "." := fun x hx => hd x (List.mem_cons_of_mem d hx)
    subst hd1
    simp only [List.cons_append, resolveLoop,
      if_neg (show ("." : String) ≠ ".." from by decide), if_pos rfl]
    exact ih hds f s rest hf hs1 hs2

/-- Counterexample to C3 as stated: in `fsFDir` (a file `f` and a directory
`g` under the root, files having no children), the segment `"f"` of the path
`"f/../g"` resolves to a file node and is followed by the further segment
`"g"`, which is neither `.` nor `..` — yet resolution succeeds, because the
intervening `..` moves the walk back to the parent directory. -/
theorem claim_C3_counterexample :
    FilesNoChildren fsFDir.nodes ∧
    fsFDir.resolvePath "f" = some 1 ∧
    (heapGet fsFDir.nodes 1).type = NType.file ∧
    (heapGet fsFDir.nodes 2).type = NType.directory ∧
    fsFDir.resolvePath "f/../g" = some 2 := by
  decide

/-- C3 amended: if some leading part of the path's segment walk reaches a
file node and the following segments continue with zero or more `.` segments
and then a segment that is neither `.` nor `..`, resolution of the whole
path fails with not-found (segments are never skipped; only an intervening
`..` can move the walk off the file node). -/
theorem claim_C3 : ∀ (fs : FileSystem) (path : String) (pre dots : List String)
    (s : String) (rest : List String) (f : Nat),
    FilesNoChildren fs.nodes →
    segments path = pre ++ (dots ++ s :: rest) →
    (∀ x ∈ dots, x = ".") → s ≠ "." → s ≠ ".." →
    resolveLoop fs.nodes (if jsStartsWithSlash path then fs.root else fs.currentDir) pre
      = some f →
    (heapGet fs.nodes f).type = NType.file →
    fs.resolvePath path = none := by
  intro fs path pre dots s rest f hfiles hsegs hdots hs1 hs2 hpre hf
  have hpne : path ≠ "" := by
    intro hp
    rw [hp, show segments "" = [] from rfl] at hsegs
    simp at hsegs
  unfold FileSystem.resolvePath
  rw [if_neg hpne, hsegs, resolveLoop_append, hpre]
  exact resolveLoop_file_blocked fs.nodes hfiles dots hdots f s rest hf hs1 hs2

/-- Witness for the amended C3: resolving `"f/x"` with `f` a file fails. -/
theorem claim_C3_witness : fsF.resolvePath "f/x" = none :=
  claim_C3 fsF "f/x" ["f"] [] "x" [] 1 (by decide) (by decide) (by decide)
    (by decide) (by decide) (by decide) (by decide)

/-! Claim C1: the `cd`/`pwd` round trip.  As stated the claim allows `..`
segments in a "normalized" path, and `cd "/a/.."; pwd` prints `"/"`, not
`"/a/.."` (counterexample below); the amended claim also excludes `..`
segments, and is proved for every well-formed state. -/

/-- Consistency of the parent/name back-references of a heap, together with
a depth certificate that makes parent chains acyclic and bounded: every
child binding `(s, c)` of an allocated node `(i, n)` points at a node that
records `i` as its parent and `s` as its name, is not the root, and sits one
level deeper, within `nextId` levels.  Every state the public operations
construct satisfies this (children are parent-linked at creation, ids stay
below `nextId`). -/
abbrev goodHeap (h : Heap) (rootId nextId : Nat) (depth : Nat → Nat) : Prop :=
  ∀ p ∈ h, ∀ q ∈ p.2.children,
    (heapGet h q.2).parent = some p.1 ∧ (heapGet h q.2).name = q.1 ∧
    q.2 ≠ rootId ∧ depth q.2 = depth p.1 + 1 ∧ depth q.2 ≤ nextId

/-- Well-formedness of a `FileSystem` state: some depth certificate exists
with the root at depth 0. -/
def Inv (fs : FileSystem) : Prop :=
  ∃ depth : Nat → Nat, depth fs.root = 0 ∧ goodHeap fs.nodes fs.root fs.nextId depth

/-- A successful `children` lookup yields the `goodHeap` facts about the
child. -/
theorem childFacts (h : Heap) (rootId nextId : Nat) (depth : Nat → Nat)
    (hg : goodHeap h rootId nextId depth) (cur : Nat) (s : String) (c : Nat)
    (hl : mapGet? (heapGet h cur).children s = some c) :
    (heapGet h c).parent = some cur ∧ (heapGet h c).name = s ∧
    c ≠ rootId ∧ depth c = depth cur + 1 ∧ depth c ≤ nextId := by
  rcases hfind : h.find? (fun p => p.1 == cur) with _ | pr
  · rw [show heapGet h cur = dummyNode from by unfold heapGet; rw [hfind]] at hl
    exact absurd hl (by simp [dummyNode, mapGet?])
  · have hgs : heapGet h cur = pr.2 := by unfold heapGet; rw [hfind]
    have hpr1 : pr.1 = cur := by simpa using List.find?_some hfind
    have hmem := List.mem_of_find?_eq_some hfind
    rw [hgs] at hl
    unfold mapGet? at hl
    obtain ⟨q, hq, hq2⟩ := Option.map_eq_some'.mp hl
    have hqmem := List.mem_of_find?_eq_some hq
    have hq1 : q.1 = s := by simpa using List.find?_some hq
    have hmain := hg pr hmem q hqmem
    rw [hpr1, hq1, hq2] at hmain
    exact hmain

/-- Along a `.`-free, `..`-free successful walk the depth certificate grows
by exactly the number of segments and stays within `nextId` when at least
one segment was taken. -/
theorem resolve_depth (h : Heap) (rootId nextId : Nat) (depth : Nat → Nat)
    (hg : goodHeap h rootId nextId depth) :
    ∀ (segs : List String) (start d : Nat),
      (∀ x ∈ segs, x ≠ "." ∧ x ≠ "..") →
      resolveLoop h start segs = some d →
      depth d = depth start + segs.length ∧ (segs ≠ [] → depth d ≤ nextId) := by
  intro segs
  induction segs with
  | nil =>
    intro start d _ hres
    have hds : start = d := by simpa [resolveLoop] using hres
    subst hds
    exact ⟨by simp, fun hne => absurd rfl hne⟩
  | cons sg rest ih =>
    intro start d hgood hres
    have hs := hgood sg (List.mem_cons_self sg rest)
    have hrest : ∀ x ∈ rest, x ≠ "." ∧ x ≠ ".." :=
      fun x hx => hgood x (List.mem_cons_of_mem sg hx)
    simp only [resolveLoop, if_neg hs.2, if_neg hs.1] at hres
    cases hl : mapGet? (heapGet h start).children sg with
    | none => rw [hl] at hres; exact Option.noConfusion hres
    | some c =>
      rw [hl] at hres
      obtain ⟨_, _, _, hdep, hbound⟩ := childFacts h rootId nextId depth hg start sg c hl
      have ih1 := (ih c d hrest hres).1
      constructor
      · rw [ih1, hdep]
        simp [List.length_cons]
        omega
      · intro _
        by_cases hrE : rest = []
        · subst hrE
          have hdc : c = d := by simpa [resolveLoop] using hres
          subst hdc
          exact hbound
        · exact (ih c d hrest hres).2 hrE

/-- The `pwd` walk undoes a `.`-free, `..`-free successful resolution: after
walking down `segs` from `start`, walking parents back up unshifts exactly
`segs` and continues from `start` with the remaining fuel. -/
theorem resolve_pwd_walk (h : Heap) (rootId nextId : Nat) (depth : Nat → Nat)
    (hg : goodHeap h rootId nextId depth) :
    ∀ (segs : List String) (start d g : Nat) (acc : List String),
      (∀ x ∈ segs, x ≠ "." ∧ x ≠ "..") →
      resolveLoop h start segs = some d →
      pwdLoop h rootId (segs.length + g + 1) d acc =
        pwdLoop h rootId (g + 1) start (segs ++ acc) := by
  intro segs
  induction segs with
  | nil =>
    intro start d g acc _ hres
    have hds : start = d := by simpa [resolveLoop] using hres
    subst hds
    simp
  | cons sg rest ih =>
    intro start d g acc hgood hres
    have hs := hgood sg (List.mem_cons_self sg rest)
    have hrest : ∀ x ∈ rest, x ≠ "." ∧ x ≠ ".." :=
      fun x hx => hgood x (List.mem_cons_of_mem sg hx)
    simp only [resolveLoop, if_neg hs.2, if_neg hs.1] at hres
    cases hl : mapGet? (heapGet h start).children sg with
    | none => rw [hl] at hres; exact Option.noConfusion hres
    | some c =>
      rw [hl] at hres
      obtain ⟨hpar, hname, hnr, _, _⟩ := childFacts h rootId nextId depth hg start sg c hl
      have harith : (sg :: rest).length + g + 1 = rest.length + (g + 1) + 1 := by
        simp [List.length_cons]
        omega
      rw [harith, ih c d (g + 1) acc hrest hres]
      simp only [pwdLoop, if_neg hnr, hpar, hname, List.cons_append]

/-- Counterexample to C1 as stated: `"/a/.."` is absolute, has no `.`
segments, no empty segments and no trailing slash (it equals the rejoining
of its non-empty segments behind a single leading slash), and resolves to
the root directory — but `cd "/a/.."` followed by `pwd` prints `"/"`, not
`"/a/.."`. -/
theorem claim_C1_counterexample :
    jsStartsWithSlash "/a/.." = true ∧
    "." ∉ segments "/a/.." ∧
    "" ∉ segments "/a/.." ∧
    "/a/.." = "/" ++ joinSlash (segments "/a/..") ∧
    fsA.resolvePath "/a/.." = some fsA.root ∧
    (heapGet fsA.nodes fsA.root).type = NType.directory ∧
    (fsA.cd "/a/..").2 = "" ∧
    ((fsA.cd "/a/..").1).pwd = "/" ∧
    ("/" : String) ≠ "/a/.." := by decide

/-- C1 amended: `pwd` prints `"/"` whenever the current directory is the
root; and for every well-formed state and every normalized absolute path
`P` — leading slash, no empty segments, no trailing slash, and no `.` or
`..` segments — that resolves to a directory, `cd P` succeeds and the
subsequent `pwd` prints exactly `P` (the root-to-leaf names joined with
`/` behind a leading slash). -/
theorem claim_C1 :
    (∀ fs : FileSystem, fs.currentDir = fs.root → fs.pwd = "/") ∧
    (∀ (fs : FileSystem) (P : String), Inv fs →
      jsStartsWithSlash P = true →
      P = "/" ++ joinSlash (segments P) →
      (∀ x ∈ segments P, x ≠ "." ∧ x ≠ "..") →
      ∀ d, fs.resolvePath P = some d →
      (heapGet fs.nodes d).type = NType.directory →
      (fs.cd P).2 = "" ∧ ((fs.cd P).1).pwd = P) := by
  constructor
  · intro fs hcd
    simp [FileSystem.pwd, hcd, pwdLoop, joinSlash]
  · intro fs P hInv habs hnorm hseg d hres hdir
    obtain ⟨depth, hd0, hg⟩ := hInv
    have hPne : P ≠ "" := by
      intro hP; rw [hP] at habs; exact absurd habs (by decide)
    have hres' : resolveLoop fs.nodes fs.root (segments P) = some d := by
      unfold FileSystem.resolvePath at hres
      rw [if_neg hPne] at hres
      simpa [habs] using hres
    rcases hsegs : segments P with _ | ⟨s1, srest⟩
    · have hP : P = "/" := by rw [hnorm, hsegs]; rfl
      subst hP
      refine ⟨by simp [FileSystem.cd], ?_⟩
      simp only [FileSystem.cd, if_pos rfl]
      simp [FileSystem.pwd, pwdLoop, joinSlash]
    · have hPslash : P ≠ "/" := by
        intro hP
        rw [hP, show segments "/" = [] from rfl] at hsegs
        exact List.noConfusion hsegs
      have hcd : fs.cd P = ({ fs with currentDir := d }, "") := by
        simp only [FileSystem.cd, if_neg hPslash, hres, hdir]
        simp
      refine ⟨by rw [hcd], ?_⟩
      rw [hcd]
      have hne : segments P ≠ [] := by rw [hsegs]; exact List.cons_ne_nil _ _
      have h2 := resolve_depth fs.nodes fs.root fs.nextId depth hg (segments P)
        fs.root d hseg hres'
      have hbd := h2.2 hne
      rw [h2.1, hd0] at hbd
      have hlen : (segments P).length ≤ fs.nextId := by omega
      have hfuel : fs.nextId + 1 =
          (segments P).length + (fs.nextId - (segments P).length) + 1 := by omega
      simp only [FileSystem.pwd]
      rw [hfuel, resolve_pwd_walk fs.nodes fs.root fs.nextId depth hg (segments P)
        fs.root d (fs.nextId - (segments P).length) [] hseg hres']
      rw [show pwdLoop fs.nodes fs.root ((fs.nextId - (segments P).length) + 1) fs.root
          (segments P ++ []) = "" :: (segments P ++ []) from by simp [pwdLoop]]
      rw [List.append_nil, hsegs]
      rw [show joinSlash ("" :: s1 :: srest) = "/" ++ joinSlash (s1 :: srest) from rfl]
      rw [hsegs] at hnorm
      rw [← hnorm, if_neg hPne]

/-- Witness for the amended C1: from the tree `/a/b` (current directory
irrelevant), `cd "/a/b"` then `pwd` prints `"/a/b"`; and `pwd` at the fresh
root prints `"/"`.  The depth certificate for `Inv` is the identity on ids,
which matches the allocation order of this state. -/
theorem claim_C1_witness :
    FileSystem.new.pwd = "/" ∧
    ((fsAB.cd "/a/b").2 = "" ∧ ((fsAB.cd "/a/b").1).pwd = "/a/b") :=
  ⟨claim_C1.1 FileSystem.new rfl,
   claim_C1.2 fsAB "/a/b" ⟨fun id => id, rfl, by decide⟩ (by decide) (by decide)
     (by decide) 2 (by decide) (by decide)⟩

/-! Claim C8: the invariant that file nodes have empty children mappings.
The code violates it: `mkdirp` walks into an existing file segment without a
kind check and hangs a directory child under it, although the data-model
comment in the source says `children` is for directories and the spec calls
the emptiness an invariant. -/

/-- C8 (evaluation at the failing input): in `fsF` the root contains the
file `f` (id 1, created by `touch`, with empty children); `mkdirp "f/g"`
succeeds and leaves that file node with the non-empty children mapping
`[("g", 2)]`, so the invariant is not preserved by `mkdirp`. -/
theorem claim_C8_bug :
    (heapGet fsF.nodes 1).type = NType.file ∧
    (heapGet fsF.nodes 1).children = [] ∧
    FilesNoChildren fsF.nodes ∧
    (fsF.mkdirp "f/g").2 = "" ∧
    (heapGet fsFG.nodes 1).type = NType.file ∧
    (heapGet fsFG.nodes 1).children = [("g", 2)] ∧
    ¬ FilesNoChildren fsFG.nodes := by decide

/-! Claim C9: the cursor-reachability invariant.  As stated it is false:
deleting an ancestor of the current directory detaches the cursor
(counterexample below); what does hold is that `rmdir` never reassigns the
cursor and never changes any node's kind. -/

/-- Counterexample to C9 as stated: starting from the tree `/a/b` with
current directory `/a/b` (state `fsAB1`, where the cursor is reachable from
the root), the public operation `rmdir "../../a"` succeeds in removing the
ancestor directory `a`; afterwards `currentDir` still references the
directory node of `b`, which is no longer reachable from the root. -/
theorem claim_C9_counterexample :
    fsAB1.currentDir ∈ reachList fsAB1.nodes fsAB1.nextId fsAB1.root ∧
    (fsAB1.rmdir "../../a").2 = "" ∧
    fsDangle.currentDir = fsAB1.currentDir ∧
    (heapGet fsDangle.nodes fsDangle.currentDir).type = NType.directory ∧
    fsDangle.currentDir ∉ reachList fsDangle.nodes fsDangle.nextId fsDangle.root := by
  decide

/-- C9 amended: `rmdir` never reassigns the cursor (first conjunct) and
never changes the kind of any node (second conjunct), so after a removal
`currentDir` still points at the same Directory node; but `rmdir` applied to
an ancestor of the current directory leaves that node unreachable from the
root — a dangling cursor, exhibited concretely by the last conjunct. -/
theorem claim_C9 :
    (∀ (fs : FileSystem) (path : String),
      ((fs.rmdir path).1).currentDir = fs.currentDir) ∧
    (∀ (fs : FileSystem) (path : String) (j : Nat),
      (heapGet ((fs.rmdir path).1).nodes j).type = (heapGet fs.nodes j).type) ∧
    ((heapGet fsDangle.nodes fsDangle.currentDir).type = NType.directory ∧
     fsDangle.currentDir ∉ reachList fsDangle.nodes fsDangle.nextId fsDangle.root) := by
  refine ⟨?_, ?_, by decide, by decide⟩
  · intro fs path
    simp only [FileSystem.rmdir]
    split
    · rfl
    · split
      · rfl
      · split
        · rfl
        · rfl
  · intro fs path j
    by_cases hp : path = ""
    · simp [FileSystem.rmdir, hp]
    · simp only [FileSystem.rmdir, if_neg hp]
      cases hpar : (if joinSlash (jsSplitSlash path).dropLast = "" then some fs.currentDir
          else fs.resolvePath (joinSlash (jsSplitSlash path).dropLast)) with
      | none => rfl
      | some par =>
        simp only [hpar]
        by_cases hhas : mapHas (heapGet fs.nodes par).children
            ((jsSplitSlash path).getLastD "") = true
        · rw [if_pos hhas]
          dsimp only
          rw [heapGet_heapSet]
          by_cases hj : j = par
          · subst hj
            rw [if_pos rfl]
          · rw [if_neg hj]
        · rw [if_neg hhas]

end CmdChallenge
